import Mathlib

/-!
Verification of the result-normalization engine of macedo-dehashtool.

The definitions below are a shallow embedding of src/result_extraction_v2.py
(and the line-identical legacy extractor in src/result_extraction.py).
JSON values are modelled by an inductive type; a pandas DataFrame is modelled
as a header (list of column labels, duplicates allowed, as pandas allows
duplicate labels) together with row-major data, where a cell is an optional
JSON value (the absent cell models NaN/None).

Modelling notes, recorded where they matter:
- pandas is pinned to >= 2.0 by setup.py, so pd.json_normalize takes the
  simple fast path: each record is flattened with dots joining nested keys,
  top-level non-mapping values coming first in record order followed by the
  flattened nested mappings; a record that is not a mapping and not a list
  flattens to the empty mapping, producing an all-absent row.  Some input
  shapes make the pandas calls inside extract_all_fields raise a
  library-internal exception that escapes the function: with a mapping (or
  scalar) record first, a list-shaped record anywhere raises in the frame
  constructor, and otherwise a list-valued field raises in drop_duplicates
  (lists are unhashable); with a list-shaped record first, the constructor
  indexes records positionally and raises exactly when some record carries
  content — a batch of contentless records instead degenerates to a
  zero-column frame and the call returns the empty baseline table.  All of
  this is modelled by the pandasRaise error outcome of extract_all_fields,
  gated on the pandasRaises predicate over the batch (see its comment for
  the pandas code paths).
- pandas drop_duplicates compares rows cell by cell with Python == and
  hash: Python bool is an int subtype, so True == 1 and False == 0, and
  missing cells count as equal to each other.  JVal.beq embeds this
  equality; absent cells compare equal through the Option layer.
- Machine floats appear only in the threshold comparison
  count >= len(sample) * 0.7 with len(sample) <= 10.  For every
  0 <= count <= n <= 10 the float comparison agrees exactly with the
  rational comparison 10 * count >= 7 * n (checked exhaustively against
  CPython doubles), which is how the threshold is embedded.
- Python regular expressions: re.match(r'.*X.*', s) succeeds exactly when X
  occurs in s with no newline before it, because the dot does not match a
  newline and re.match only needs a match at the start; and
  re.match(r'^[a-fA-F0-9]\x7b16,\x7d$', s) succeeds exactly when s is 16 or
  more hex digits, optionally followed by one final newline, because the
  dollar anchor also matches just before a newline that ends the string.
  Both facts are embedded below and were checked against CPython.
- ASCII case folding is used for str.lower, and the ASCII whitespace
  characters for str.strip; the claims and all concrete inputs are ASCII.
-/

/-- A JSON-like Python value as it appears in a Dehashed API response. -/
inductive JVal where
  | s (v : String)
  | n (v : Int)
  | b (v : Bool)
  | null
  | arr (vs : List JVal)
  | obj (fs : List (String × JVal))

mutual

/-- Python == on JSON values, the comparison pandas drop_duplicates makes
per cell: strings by content, numbers by value, booleans as the ints 0 and
1 (Python bool is an int subtype, so True == 1 and False == 0), lists
elementwise, mappings elementwise in insertion order.  In the pipeline a
mapping can only sit inside a list-valued cell, and such cells abort the
call before any comparison (see pandasRaises), so the insertion-order
comparison of mappings is unobservable there. -/
def JVal.beq : JVal → JVal → Bool
  | .s a, .s b => a == b
  | .n a, .n b => a == b
  | .b a, .b b => a == b
  | .b a, .n b => (if a then (1 : Int) else 0) == b
  | .n a, .b b => a == (if b then (1 : Int) else 0)
  | .null, .null => true
  | .arr as, .arr bs => beqArr as bs
  | .obj as, .obj bs => beqObj as bs
  | _, _ => false

/-- Elementwise equality of JSON lists. -/
def beqArr : List JVal → List JVal → Bool
  | [], [] => true
  | a :: as, b :: bs => JVal.beq a b && beqArr as bs
  | _, _ => false

/-- Elementwise equality of key-value lists. -/
def beqObj : List (String × JVal) → List (String × JVal) → Bool
  | [], [] => true
  | (k, v) :: as, (k2, v2) :: bs => k == k2 && JVal.beq v v2 && beqObj as bs
  | _, _ => false

end

instance : BEq JVal := ⟨JVal.beq⟩

mutual

/-- Decidable propositional equality on JSON values. -/
def JVal.decEq : (a b : JVal) → Decidable (a = b)
  | .s a, .s b =>
    if h : a = b then isTrue (by rw [h]) else isFalse (fun hh => h (by cases hh; rfl))
  | .n a, .n b =>
    if h : a = b then isTrue (by rw [h]) else isFalse (fun hh => h (by cases hh; rfl))
  | .b a, .b b =>
    if h : a = b then isTrue (by rw [h]) else isFalse (fun hh => h (by cases hh; rfl))
  | .null, .null => isTrue rfl
  | .arr as, .arr bs =>
    match decEqJValList as bs with
    | isTrue h => isTrue (by rw [h])
    | isFalse h => isFalse (fun hh => h (by cases hh; rfl))
  | .obj as, .obj bs =>
    match decEqJObjList as bs with
    | isTrue h => isTrue (by rw [h])
    | isFalse h => isFalse (fun hh => h (by cases hh; rfl))
  | .s _, .n _ => isFalse (fun h => JVal.noConfusion h)
  | .s _, .b _ => isFalse (fun h => JVal.noConfusion h)
  | .s _, .null => isFalse (fun h => JVal.noConfusion h)
  | .s _, .arr _ => isFalse (fun h => JVal.noConfusion h)
  | .s _, .obj _ => isFalse (fun h => JVal.noConfusion h)
  | .n _, .s _ => isFalse (fun h => JVal.noConfusion h)
  | .n _, .b _ => isFalse (fun h => JVal.noConfusion h)
  | .n _, .null => isFalse (fun h => JVal.noConfusion h)
  | .n _, .arr _ => isFalse (fun h => JVal.noConfusion h)
  | .n _, .obj _ => isFalse (fun h => JVal.noConfusion h)
  | .b _, .s _ => isFalse (fun h => JVal.noConfusion h)
  | .b _, .n _ => isFalse (fun h => JVal.noConfusion h)
  | .b _, .null => isFalse (fun h => JVal.noConfusion h)
  | .b _, .arr _ => isFalse (fun h => JVal.noConfusion h)
  | .b _, .obj _ => isFalse (fun h => JVal.noConfusion h)
  | .null, .s _ => isFalse (fun h => JVal.noConfusion h)
  | .null, .n _ => isFalse (fun h => JVal.noConfusion h)
  | .null, .b _ => isFalse (fun h => JVal.noConfusion h)
  | .null, .arr _ => isFalse (fun h => JVal.noConfusion h)
  | .null, .obj _ => isFalse (fun h => JVal.noConfusion h)
  | .arr _, .s _ => isFalse (fun h => JVal.noConfusion h)
  | .arr _, .n _ => isFalse (fun h => JVal.noConfusion h)
  | .arr _, .b _ => isFalse (fun h => JVal.noConfusion h)
  | .arr _, .null => isFalse (fun h => JVal.noConfusion h)
  | .arr _, .obj _ => isFalse (fun h => JVal.noConfusion h)
  | .obj _, .s _ => isFalse (fun h => JVal.noConfusion h)
  | .obj _, .n _ => isFalse (fun h => JVal.noConfusion h)
  | .obj _, .b _ => isFalse (fun h => JVal.noConfusion h)
  | .obj _, .null => isFalse (fun h => JVal.noConfusion h)
  | .obj _, .arr _ => isFalse (fun h => JVal.noConfusion h)

/-- Decidable equality of JSON value lists. -/
def decEqJValList : (as bs : List JVal) → Decidable (as = bs)
  | [], [] => isTrue rfl
  | [], _ :: _ => isFalse (fun h => List.noConfusion h)
  | _ :: _, [] => isFalse (fun h => List.noConfusion h)
  | a :: as, b :: bs =>
    match JVal.decEq a b with
    | isFalse h => isFalse (fun hh => h (by cases hh; rfl))
    | isTrue h1 =>
      match decEqJValList as bs with
      | isTrue h2 => isTrue (by rw [h1, h2])
      | isFalse h => isFalse (fun hh => h (by cases hh; rfl))

/-- Decidable equality of key-value lists. -/
def decEqJObjList : (as bs : List (String × JVal)) → Decidable (as = bs)
  | [], [] => isTrue rfl
  | [], _ :: _ => isFalse (fun h => List.noConfusion h)
  | _ :: _, [] => isFalse (fun h => List.noConfusion h)
  | (k, v) :: as, (k2, v2) :: bs =>
    if hk : k = k2 then
      match JVal.decEq v v2 with
      | isFalse h => isFalse (fun hh => h (by cases hh; rfl))
      | isTrue h1 =>
        match decEqJObjList as bs with
        | isTrue h2 => isTrue (by rw [hk, h1, h2])
        | isFalse h => isFalse (fun hh => h (by cases hh; rfl))
    else isFalse (fun hh => hk (by cases hh; rfl))

end

instance : DecidableEq JVal := JVal.decEq

/-- A Python dict with string keys, in insertion order with unique keys. -/
abbrev PyDict := List (String × JVal)

/-- Is the value a mapping? -/
def JVal.isObj : JVal → Bool
  | .obj _ => true
  | _ => false

/-- Is the value a list? -/
def JVal.isArr : JVal → Bool
  | .arr _ => true
  | _ => false

/-- Python dict assignment d[k] = v: overwrite in place if the key exists,
append otherwise. -/
def dictUpd (d : PyDict) (k : String) (v : JVal) : PyDict :=
  if d.any (fun p => p.1 == k) then
    d.map (fun p => if p.1 == k then (k, v) else p)
  else
    d ++ [(k, v)]

/-- Rebuild an association list with Python dict semantics (later values for
a repeated key overwrite the earlier ones, keeping the first position). -/
def pyDictOf (ps : List (String × JVal)) : PyDict :=
  ps.foldl (fun d p => dictUpd d p.1 p.2) []

/-- Key joining used by pandas json-normalization: nested keys are joined
with a dot; an empty accumulated key is dropped. -/
def joinKey (pre k : String) : String :=
  if pre = "" then k else pre ++ "." ++ k

/- The recursive flattening step of pandas json-normalization
(pandas _normalise_json): walk nested mappings depth-first in record order,
emitting one leaf per terminal (non-mapping) value under its joined path. -/

mutual

def flattenVal (key : String) : JVal → List (String × JVal)
  | .obj fs => flattenObjList key fs
  | v => [(key, v)]

def flattenObjList (pre : String) : List (String × JVal) → List (String × JVal)
  | [] => []
  | (k, v) :: rest => flattenVal (joinKey pre k) v ++ flattenObjList pre rest

end

/-- Flattening of one record (pandas _normalise_json_ordered): top-level
non-mapping values first in record order, then the flattened nested
mappings; the final Python dict merge lets a later-discovered path
overwrite an equal earlier one. -/
def recordFlat (fs : PyDict) : PyDict :=
  let tops := fs.filter (fun p => !p.2.isObj)
  let nested := flattenObjList "" (fs.filter (fun p => p.2.isObj))
  pyDictOf (tops ++ nested)

/-- A pandas DataFrame over JSON cells: a list of column labels (duplicate
labels allowed, as in pandas) and row-major data; an absent cell models
NaN/None. -/
structure DF where
  header : List String
  rows : List (List (Option JVal))

instance : DecidableEq DF := fun a b =>
  decidable_of_iff (a.header = b.header ∧ a.rows = b.rows)
    (by cases a; cases b; simp)

instance {ε α : Type} [DecidableEq ε] [DecidableEq α] : DecidableEq (Except ε α)
  | .ok a, .ok b =>
    if h : a = b then isTrue (by rw [h]) else isFalse (fun hh => h (by cases hh; rfl))
  | .error a, .error b =>
    if h : a = b then isTrue (by rw [h]) else isFalse (fun hh => h (by cases hh; rfl))
  | .ok _, .error _ => isFalse (fun h => Except.noConfusion h)
  | .error _, .ok _ => isFalse (fun h => Except.noConfusion h)

/-- A JSON null stored in a DataFrame becomes a missing cell (pandas treats
None as NaN for dropna); any other value is kept. -/
def cellOf : JVal → Option JVal
  | .null => none
  | v => some v

/-- First-seen column order over the flattened records, as produced by the
pandas DataFrame constructor on a list of dicts. -/
def unionKeys (flats : List PyDict) : List String :=
  flats.foldl
    (fun acc fl => fl.foldl
      (fun acc p => if acc.contains p.1 then acc else acc ++ [p.1]) acc) []

/-- The row a flattened record contributes, one cell per column. -/
def rowOf (hdr : List String) (fl : PyDict) : List (Option JVal) :=
  hdr.map (fun k => (fl.lookup k).bind cellOf)

/-- The flat mapping a record contributes: mapping records are flattened;
any other record flattens to the empty mapping (pandas
_simple_json_normalize returns an empty dict for a scalar row, which the
frame constructor turns into an all-absent row).  A list-shaped record
never reaches the frame constructor in the pipeline: extract_all_fields
raises first (see pandasRaises), so the value chosen here for lists is
never observed there. -/
def flatOf : JVal → PyDict
  | .obj fs => recordFlat fs
  | _ => []

/-- pd.json_normalize on the entries list (pandas >= 2.0 simple path). -/
def json_normalize (entries : List JVal) : DF :=
  ⟨unionKeys (entries.map flatOf),
   (entries.map flatOf).map (rowOf (unionKeys (entries.map flatOf)))⟩

/-- One pass of re.sub applied with the pattern matching runs of
underscores: every maximal run of underscores becomes a single one. -/
def collapseUnderscores : List Char → List Char
  | [] => []
  | [c] => [c]
  | a :: b :: rest =>
    if a == '_' && b == '_' then collapseUnderscores (b :: rest)
    else a :: collapseUnderscores (b :: rest)

/-- Python str.strip(c): remove the character from both ends. -/
def stripChar (c : Char) (cs : List Char) : List Char :=
  ((cs.dropWhile (fun a => a == c)).reverse.dropWhile (fun a => a == c)).reverse

/-- The column-name sanitizer of src/result_extraction_v2.py lines 44-54:
dots to underscores, spaces to underscores, collapse runs of underscores,
strip leading and trailing underscores, lowercase (ASCII folding modelled,
as in Char.toLower; all names in play are ASCII). -/
def sanitizeName (s : String) : String :=
  let cs := s.toList.map (fun c => if c == '.' || c == ' ' then '_' else c)
  String.mk ((stripChar '_' (collapseUnderscores cs)).map Char.toLower)

/-- _sanitize_column_names: rename every column, keep the data. -/
def _sanitize_column_names (df : DF) : DF :=
  ⟨df.header.map sanitizeName, df.rows⟩

/-- _ensure_common_columns: append each missing expected column, filled with
None (the absent cell) for every row. -/
def _ensure_common_columns (df : DF) (cols : List String) : DF :=
  cols.foldl (fun d c =>
    if d.header.contains c then d
    else ⟨d.header ++ [c], d.rows.map (fun r => r ++ [none])⟩) df

/-- The commonly-expected baseline columns of extract_all_fields line 187. -/
def commonCols : List String :=
  ["email", "password", "username", "domain", "id", "name", "phone", "address"]

/-- A row all of whose cells are absent (pandas: all values NaN). -/
def isAbsentRow (r : List (Option JVal)) : Bool := r.all (fun c => c.isNone)

/-- pandas drop_duplicates: keep the first occurrence of each value. -/
def dedupKeepFirst {α : Type} [BEq α] (l : List α) : List α :=
  l.foldl (fun acc r => if acc.contains r then acc else acc ++ [r]) []

/-- _intelligent_cleanup: on a non-degenerate frame (pandas df.empty is true
when either axis has length zero), drop the rows whose cells are all absent
(dropna how=all), then the rows equal to an earlier row under Python
equality (drop_duplicates compares by == and hash, see JVal.beq), keeping
first occurrences, then reset the index — the model keeps rows as a list,
so positions are contiguous from zero by construction. -/
def _intelligent_cleanup (df : DF) : DF :=
  if df.rows.isEmpty || df.header.isEmpty then df
  else ⟨df.header, dedupKeepFirst (df.rows.filter (fun r => !isAbsentRow r))⟩

/-- The error outcomes of extract_all_fields: KeyError for a missing
entries key, ValueError for an entries value that is not a list, and a
pandas-internal exception escaping the call (AttributeError from the frame
constructor or the column sanitizer on a list-shaped record, TypeError
from drop_duplicates on a list-valued cell). -/
inductive ExtractError where
  | missingEntries
  | invalidEntriesType
  | pandasRaise
deriving DecidableEq

/-- The normalization pipeline applied to a non-empty entries list:
json-normalize, sanitize names, guarantee baseline columns, clean up. -/
def normalizeTable (entries : List JVal) : DF :=
  _intelligent_cleanup
    (_ensure_common_columns (_sanitize_column_names (json_normalize entries)) commonCols)

/-- The table just before the cleanup step of the pipeline: json-normalize,
sanitize names, guarantee baseline columns.  Its rows are in one-to-one
correspondence with the input records. -/
def preTable (entries : List JVal) : DF :=
  _ensure_common_columns (_sanitize_column_names (json_normalize entries)) commonCols

/-- The number of positional slots a flattened record occupies in the
pandas frame constructor: a list-shaped record keeps one slot per element
(the fast path maps each element through itself, preserving the length), a
mapping record one slot per flattened leaf, a scalar none (it flattens to
the empty mapping). -/
def recordSize : JVal → Nat
  | .arr vs => vs.length
  | .obj fs => (recordFlat fs).length
  | _ => 0

/-- The batches on which the pandas calls inside extract_all_fields raise.
The frame constructor branches on the first flattened record.  When it is a
mapping (the record was a mapping or a scalar), the constructor collects
columns by calling keys() on every record, so any list-shaped record raises
AttributeError; with no list-shaped record, a list-valued field survives
into a cell whose row passes dropna, and drop_duplicates then hashes it
(TypeError, lists being unhashable).  When the first flattened record is a
list, the constructor indexes every record positionally: a mapping record
with any flattened leaf raises KeyError on the integer position, and a
list record with any element forces integer column labels on which the
column sanitizer calls str.replace (AttributeError) — so the call raises
exactly when some record carries content, and a batch of contentless
records degenerates to a zero-column frame instead.  In every raising case
a library-internal exception escapes extract_all_fields. -/
def pandasRaises (es : List JVal) : Bool :=
  match es with
  | [] => false
  | e :: _ =>
    if e.isArr then es.any (fun r => recordSize r != 0)
    else es.any (fun r => r.isArr) || es.any (fun r => (flatOf r).any (fun p => p.2.isArr))

/-- extract_all_fields (src/result_extraction_v2.py lines 159-193): KeyError
when the entries key is missing, ValueError when its value is not a list, an
empty frame for an empty list, the escaping pandas exception on the batches
of pandasRaises, and otherwise the normalization pipeline. -/
def extract_all_fields (resp : PyDict) : Except ExtractError DF :=
  match resp.lookup "entries" with
  | none => .error .missingEntries
  | some (.arr entries) =>
    if entries.isEmpty then .ok ⟨[], []⟩
    else if pandasRaises entries then .error .pandasRaise
    else .ok (normalizeTable entries)
  | some _ => .error .invalidEntriesType

/- Python textual forms, as applied by astype(str) and str().  String cells
are rendered as-is by pyStr; other shapes get their Python textual form
(string escaping inside list/dict forms is not modelled; no concrete input
below relies on it). -/

mutual

def pyRepr : JVal → String
  | .s v => "\x27" ++ v ++ "\x27"
  | .n i => toString i
  | .b true => "True"
  | .b false => "False"
  | .null => "None"
  | .arr vs => "[" ++ pyReprList vs ++ "]"
  | .obj fs => "\x7b" ++ pyReprObj fs ++ "\x7d"

def pyReprList : List JVal → String
  | [] => ""
  | [v] => pyRepr v
  | v :: rest => pyRepr v ++ ", " ++ pyReprList rest

def pyReprObj : List (String × JVal) → String
  | [] => ""
  | [(k, v)] => "\x27" ++ k ++ "\x27: " ++ pyRepr v
  | (k, v) :: rest => "\x27" ++ k ++ "\x27: " ++ pyRepr v ++ ", " ++ pyReprObj rest

end

/-- Python str(), which differs from repr only on strings. -/
def pyStr : JVal → String
  | .s v => v
  | v => pyRepr v

/-- The characters of the regex class a-fA-F0-9. -/
def isHexDigitChar (c : Char) : Bool :=
  ('0' ≤ c && c ≤ '9') || ('a' ≤ c && c ≤ 'f') || ('A' ≤ c && c ≤ 'F')

/-- The hash digest lengths of _detect_hash_columns line 122. -/
def hashLengths : List Nat := [32, 40, 56, 64, 96, 128]

/-- re.match of the anchored pattern of 16-or-more hex digits against v.
In Python the dollar anchor matches at the end of the string or just before
a single newline that ends it, so the match succeeds exactly when v is 16 or
more hex digits or 16 or more hex digits followed by one final newline. -/
def pyMatchHexRun (v : String) : Bool :=
  let cs := v.toList
  (decide (16 ≤ cs.length) && cs.all isHexDigitChar) ||
  (decide (17 ≤ cs.length) && cs.getLast? == some '\n' && cs.dropLast.all isHexDigitChar)

/-- The per-value test of _detect_hash_columns line 122: the regex match
together with the length check on the whole value. -/
def isHashValue (v : String) : Bool :=
  pyMatchHexRun v && hashLengths.contains v.toList.length

/-- The substrings of the name patterns of _detect_hash_columns lines
92-102, in source order. -/
def hashPats : List String :=
  ["hash", "md5", "sha", "bcrypt", "scrypt", "pbkdf2", "ntlm", "lm", "crypt"]

/-- Substring occurrence test. -/
def strContainsSub (s pat : String) : Bool :=
  s.toList.tails.any (fun t => pat.toList.isPrefixOf t)

/-- The part of a string before its first newline. -/
def firstLine (s : String) : String :=
  String.mk (s.toList.takeWhile (fun c => c != '\n'))

/-- Python str.lower, modelled with ASCII folding. -/
def lowerAscii (s : String) : String := String.mk (s.toList.map Char.toLower)

/-- The name-based match of _detect_hash_columns lines 104-111: re.match of
a dotstar-wrapped substring against the lowercased name succeeds exactly
when the substring occurs with no newline before it, since the dot does not
match a newline and re.match anchors only at the start. -/
def nameMatches (s : String) : Bool :=
  hashPats.any (fun p => strContainsSub (firstLine (lowerAscii s)) p)

/-- The sampled values of a column: drop the absent cells, render with
str(), take the first 10 (dropna, astype(str), head(10)). -/
def sampleValues (vs : List (Option JVal)) : List String :=
  ((vs.filterMap id).map pyStr).take 10

/-- The content-based test of _detect_hash_columns lines 114-127 for one
column: the column must be non-degenerate (pandas Series.empty is true when
there are no rows), the sample must be non-empty, and the count of
hash-looking sampled values must reach the 70 percent threshold; the float
comparison count >= len * 0.7 agrees with 10 * count >= 7 * len for every
sample length up to 10 (checked against CPython doubles). -/
def contentHit (vs : List (Option JVal)) : Bool :=
  if vs.isEmpty then false
  else
    let sample := sampleValues vs
    if 0 < sample.length then
      decide (7 * sample.length ≤ 10 * sample.countP isHashValue)
    else false

/-- The content half of one iteration of the column loop of
_detect_hash_columns: when the name is not already in the accumulated list,
run the content test and append the name on success. -/
def detectContentPhase (acc1 : List String) (c : String × List (Option JVal)) :
    List String :=
  if !acc1.contains c.1 && contentHit c.2 then acc1 ++ [c.1] else acc1

/-- One iteration of the column loop of _detect_hash_columns: append the
name on a name match, then run the content phase. -/
def detectStep (acc : List String) (c : String × List (Option JVal)) : List String :=
  detectContentPhase (if nameMatches c.1 then acc ++ [c.1] else acc) c

/-- The columns of a frame in order, each with its cell list.  This is the
positional reading of iterating df.columns and indexing df by label; it
coincides with pandas when the labels are pairwise distinct, which the
classifier theorems assume (pandas label indexing degenerates on duplicate
labels). -/
def columnsOf (df : DF) : List (String × List (Option JVal)) :=
  df.header.enum.map (fun p => (p.2, df.rows.map (fun r => (r.get? p.1).join)))

/-- _detect_hash_columns (src/result_extraction_v2.py lines 79-129). -/
def _detect_hash_columns (df : DF) : List String :=
  (columnsOf df).foldl detectStep []

/-- Python truthiness of a JSON value. -/
def pyTruthy : JVal → Bool
  | .s v => v != ""
  | .n i => i != 0
  | .b v => v
  | .null => false
  | .arr vs => !vs.isEmpty
  | .obj fs => !fs.isEmpty

/-- The ASCII whitespace stripped by Python str.strip (the concrete inputs
below use only ASCII). -/
def isPySpace (c : Char) : Bool :=
  c == ' ' || c == '\t' || c == '\n' || c == '\r' || c == '\x0b' || c == '\x0c'

/-- Python str.strip on a character list. -/
def pyStripL (cs : List Char) : List Char :=
  ((cs.dropWhile isPySpace).reverse.dropWhile isPySpace).reverse

/-- Python str.strip. -/
def pyStrip (s : String) : String := String.mk (pyStripL s.toList)

/-- Python str.split on a single separator character: splitting the empty
string gives one empty group, and each separator starts a new group. -/
def splitOnChar (c : Char) : List Char → List (List Char)
  | [] => [[]]
  | a :: rest =>
    if a == c then [] :: splitOnChar c rest
    else
      match splitOnChar c rest with
      | [] => [[a]]
      | g :: gs => (a :: g) :: gs

/-- Python value.split on the semicolon character. -/
def pySplitSemi (s : String) : List String :=
  (splitOnChar ';' s.toList).map String.mk

/-- The rows one entry contributes in extract_email_password_data
(src/result_extraction.py lines 39-71 and the line-identical
src/result_extraction_v2.py lines 308-340): a list-valued password field is
walked element by element, splitting on the semicolon when one occurs and
otherwise pairing the element with each truthy email; a string-valued
password is paired whole with each truthy email; any other password shape
contributes nothing. -/
def pairsOfEntry (fs : PyDict) : List (String × String) :=
  match fs.lookup "password" with
  | some (.arr ps) =>
    ps.foldl (fun acc p =>
      let sp := pyStr p
      if sp.toList.contains ';' then
        match pySplitSemi sp with
        | [l, r] => acc ++ [(pyStrip l, pyStrip r)]
        | _ => acc
      else
        match fs.lookup "email" with
        | some ed =>
          let emails := match ed with | .arr es => es | e => [e]
          acc ++ (emails.filter pyTruthy).map (fun e => (pyStrip (pyStr e), pyStrip sp))
        | none => acc) []
  | some (.s pstr) =>
    match fs.lookup "email" with
    | some ed =>
      let emails := match ed with | .arr es => es | e => [e]
      (emails.filter pyTruthy).map (fun e => (pyStrip (pyStr e), pyStrip pstr))
    | none => []
  | _ => []

/-- extract_email_password_data, the narrow two-column legacy extraction
(identical in src/result_extraction.py and src/result_extraction_v2.py):
the same envelope errors, per-entry pair extraction over mapping entries
(non-mapping entries are outside the model: on those the Python membership
test degenerates or raises), duplicate removal keeping the first occurrence,
and the drop of pairs whose identifier or secret strips to empty.  The
dropna on the two columns is a no-op because every extracted value is built
by str() and so never null. -/
def extract_email_password_data (resp : PyDict) :
    Except ExtractError (List (String × String)) :=
  match resp.lookup "entries" with
  | none => .error .missingEntries
  | some (.arr entries) =>
    let extracted := entries.foldl (fun acc e =>
      match e with
      | .obj fs => acc ++ pairsOfEntry fs
      | _ => acc) []
    if extracted.isEmpty then .ok []
    else
      .ok ((dedupKeepFirst extracted).filter
        (fun pr => pyStrip pr.1 != "" && pyStrip pr.2 != ""))
  | some _ => .error .invalidEntriesType

/-- The hash-shaped predicate exactly as claim C1 words it: solely
hexadecimal characters, with length one of the digest lengths. -/
def specHashShapedClaim (v : String) : Bool :=
  v.toList.all isHexDigitChar && hashLengths.contains v.toList.length

/-- The amended hash-shaped predicate: solely hexadecimal characters, or
hexadecimal characters followed by a single final newline, with the total
length one of the digest lengths.  Written from the amended claim wording,
independently of the regex model above. -/
def specHashShapedAmended (v : String) : Bool :=
  (v.toList.all isHexDigitChar && hashLengths.contains v.toList.length) ||
  (v.toList.getLast? == some '\n' && v.toList.dropLast.all isHexDigitChar &&
    hashLengths.contains v.toList.length)

/-- The substrings claim C2 enumerates (claim C10 notes the extra lm one). -/
def claimC2Pats : List String :=
  ["hash", "md5", "sha", "bcrypt", "scrypt", "pbkdf2", "ntlm", "crypt"]

/-- A 31-character hex run with a final newline: length 32, accepted by the
Python regex because the dollar anchor matches before a trailing newline. -/
def hexNL : String := String.mk (List.replicate 31 'f' ++ ['\n'])

/-- A 32-character hex string. -/
def hex32 : String := String.mk (List.replicate 32 'a')

/-- Response whose one record carries the newline-terminated hex value in a
column with a neutral name. -/
def respC1 : PyDict := [("entries", JVal.arr [JVal.obj [("data", JVal.s hexNL)]])]

/-- The table extract_all_fields produces from respC1. -/
def dfC1 : DF := ⟨"data" :: commonCols, [some (JVal.s hexNL) :: List.replicate 8 none]⟩

/-- Ten-row one-column table: 7 hash-shaped values and 3 plaintext ones. -/
def dfC1w : DF :=
  ⟨["data"],
    List.replicate 7 [some (JVal.s hex32)] ++ List.replicate 3 [some (JVal.s "password1")]⟩

/-- The column list of dfC1w. -/
def valsC1w : List (Option JVal) :=
  List.replicate 7 (some (JVal.s hex32)) ++ List.replicate 3 (some (JVal.s "password1"))

/-- Response with one record whose key contains hash after a newline. -/
def respC2 : PyDict := [("entries", JVal.arr [JVal.obj [("foo\nhash", JVal.s "x")]])]

/-- The table extract_all_fields produces from respC2. -/
def dfC2 : DF := ⟨"foo\nhash" :: commonCols, [some (JVal.s "x") :: List.replicate 8 none]⟩

/-- One-column table named md5_hash whose only value is the non-hex n/a. -/
def dfMd5 : DF := ⟨["md5_hash"], [[some (JVal.s "n/a")]]⟩

/-- Response with one record whose key contains lm only after a newline. -/
def respC10 : PyDict := [("entries", JVal.arr [JVal.obj [("a\nlm", JVal.s "x")]])]

/-- The table extract_all_fields produces from respC10. -/
def dfC10 : DF := ⟨"a\nlm" :: commonCols, [some (JVal.s "x") :: List.replicate 8 none]⟩

/-- One-column table named film_title with a plaintext value. -/
def dfFilm : DF := ⟨["film_title"], [[some (JVal.s "The Matrix")]]⟩

/-- A response whose records list is empty. -/
def respEmpty : PyDict := [("entries", JVal.arr [])]

/-- A record batch with a single one-field record. -/
def esC3 : List JVal := [JVal.obj [("email", JVal.s "a@x.com")]]

/-- A record whose password field is a single delimiter-joined string. -/
def respC7 : PyDict :=
  [("entries", JVal.arr [JVal.obj [("password", JVal.s "user@x.com;secretpw")]])]

/-- A record whose password field is the list of delimiter-joined strings
built from the identifier-secret pairs of l. -/
def respC7Ls (l : List (String × String)) : PyDict :=
  [("entries", JVal.arr [JVal.obj
    [("password", JVal.arr (l.map (fun p => JVal.s (p.1 ++ ";" ++ p.2))))]])]

/-- A two-record batch whose single keys collide after sanitization. -/
def respC8 (k1 k2 v1 v2 : String) : PyDict :=
  [("entries", JVal.arr [JVal.obj [(k1, JVal.s v1)], JVal.obj [(k2, JVal.s v2)]])]

/-- A response carrying no entries key at all. -/
def respNoEntries : PyDict := [("total", JVal.n 5)]

/-- Four records: three identical ones and one whose only field is null (its
row is entirely absent). -/
def esC5 : List JVal :=
  [JVal.obj [("a", JVal.s "x")], JVal.obj [("a", JVal.s "x")],
   JVal.obj [("a", JVal.s "x")], JVal.obj [("b", JVal.null)]]

/-- The response wrapping esC5. -/
def respC5 : PyDict := [("entries", JVal.arr esC5)]

/-- Two records whose only cells hold the Python boolean True and the
Python int 1: equal under Python == but not identical values. -/
def esC5x : List JVal := [JVal.obj [("flag", JVal.b true)], JVal.obj [("flag", JVal.n 1)]]

/-- The response wrapping esC5x. -/
def respC5x : PyDict := [("entries", JVal.arr esC5x)]

/-- A batch holding one mapping record and one list-shaped record. -/
def esC6x : List JVal := [JVal.obj [("a", JVal.s "x")], JVal.arr [JVal.n 1]]

/-- The response wrapping esC6x. -/
def respC6x : PyDict := [("entries", JVal.arr esC6x)]

/-- A response whose records include a list-shaped element after a mapping
record. -/
def respC4x : PyDict :=
  [("entries", JVal.arr [JVal.obj [("email", JVal.s "a@x.com")], JVal.arr [JVal.n 1]])]

/-- A batch with a number among the records. -/
def esC6 : List JVal := [JVal.n 5, JVal.obj [("a", JVal.s "x")]]

/-- The response wrapping esC6. -/
def respC6 : PyDict := [("entries", JVal.arr esC6)]

/-- The table extract_all_fields produces from the colliding key paths
user.profile.name and user profile name: both columns survive under the
same sanitized label, each keeping its own values. -/
def dfC8 : DF :=
  ⟨"user_profile_name" :: "user_profile_name" :: commonCols,
   [some (JVal.s "John") :: none :: List.replicate 8 none,
    none :: some (JVal.s "Jane") :: List.replicate 8 none]⟩

theorem contains_eq_false_of_not_mem {l : List String} {a : String} (h : a ∉ l) :
    l.contains a = false := by
  cases hc : l.contains a
  · rfl
  · exact absurd (List.elem_iff.mp hc) h

theorem mem_detectContentPhase {acc1 : List String} {x : String}
    (c : String × List (Option JVal)) (hx : x ∈ acc1) :
    x ∈ detectContentPhase acc1 c := by
  unfold detectContentPhase
  split
  · exact List.mem_append_left _ hx
  · exact hx

theorem detectContentPhase_sub {acc1 : List String} {x : String}
    {c : String × List (Option JVal)} (hx : x ∈ detectContentPhase acc1 c) :
    x ∈ acc1 ∨ x = c.1 := by
  unfold detectContentPhase at hx
  split at hx
  · rcases List.mem_append.mp hx with h | h
    · exact Or.inl h
    · exact Or.inr (List.mem_singleton.mp h)
  · exact Or.inl hx

theorem mem_detectStep {acc : List String} {x : String}
    (c : String × List (Option JVal)) (hx : x ∈ acc) :
    x ∈ detectStep acc c := by
  unfold detectStep
  apply mem_detectContentPhase
  split
  · exact List.mem_append_left _ hx
  · exact hx

theorem detectStep_sub {acc : List String} {x : String}
    {c : String × List (Option JVal)} (hx : x ∈ detectStep acc c) :
    x ∈ acc ∨ x = c.1 := by
  unfold detectStep at hx
  rcases detectContentPhase_sub hx with h | h
  · split at h
    · rcases List.mem_append.mp h with h2 | h2
      · exact Or.inl h2
      · exact Or.inr (List.mem_singleton.mp h2)
    · exact Or.inl h
  · exact Or.inr h

theorem mem_detectStep_self_of_name {acc : List String}
    {c : String × List (Option JVal)} (h : nameMatches c.1 = true) :
    c.1 ∈ detectStep acc c := by
  unfold detectStep
  rw [if_pos h]
  exact mem_detectContentPhase _ (List.mem_append_right _ (List.mem_singleton_self _))

theorem detect_foldl_mono (l : List (String × List (Option JVal)))
    {acc : List String} {x : String} (hx : x ∈ acc) :
    x ∈ l.foldl detectStep acc := by
  induction l generalizing acc with
  | nil => exact hx
  | cons c rest ih => exact ih (mem_detectStep c hx)

theorem detect_foldl_sub {l : List (String × List (Option JVal))}
    {acc : List String} {x : String} (hx : x ∈ l.foldl detectStep acc) :
    x ∈ acc ∨ x ∈ l.map Prod.fst := by
  induction l generalizing acc with
  | nil => exact Or.inl hx
  | cons c rest ih =>
    rcases ih hx with h | h
    · rcases detectStep_sub h with h2 | h2
      · exact Or.inl h2
      · exact Or.inr (h2 ▸ List.mem_map_of_mem Prod.fst (List.mem_cons_self c rest))
    · exact Or.inr (List.mem_cons_of_mem _ h)

theorem detect_foldl_not_mem {l : List (String × List (Option JVal))}
    {acc : List String} {x : String} (hacc : x ∉ acc) (hl : x ∉ l.map Prod.fst) :
    x ∉ l.foldl detectStep acc := by
  intro h
  rcases detect_foldl_sub h with h2 | h2
  · exact hacc h2
  · exact hl h2

theorem mem_detect_foldl_of_name {l : List (String × List (Option JVal))}
    {acc : List String} {n : String} {vs : List (Option JVal)}
    (hm : (n, vs) ∈ l) (h : nameMatches n = true) :
    n ∈ l.foldl detectStep acc := by
  induction l generalizing acc with
  | nil => cases hm
  | cons c rest ih =>
    rcases List.mem_cons.mp hm with he | hr
    · rw [List.foldl_cons]
      have hcn : c.1 = n := by rw [← he]
      refine detect_foldl_mono rest ?_
      have hstep := @mem_detectStep_self_of_name acc c
        (by rw [hcn]; exact h)
      exact hcn ▸ hstep
    · exact ih hr

theorem detectStep_no_name {acc : List String} {n : String}
    (vs : List (Option JVal)) (hnm : nameMatches n = false) (hacc : n ∉ acc) :
    detectStep acc (n, vs) = if contentHit vs = true then acc ++ [n] else acc := by
  unfold detectStep detectContentPhase
  have h1 : nameMatches (n, vs).1 = false := hnm
  have h2 : List.contains acc (n, vs).1 = false := contains_eq_false_of_not_mem hacc
  simp only [h1, Bool.false_eq_true, if_false, h2, Bool.not_false, Bool.true_and]

theorem detect_spec_gen (l : List (String × List (Option JVal)))
    (acc : List String) (n : String) (vs : List (Option JVal))
    (hnd : (l.map Prod.fst).Nodup) (hm : (n, vs) ∈ l)
    (hnm : nameMatches n = false) (hacc : n ∉ acc) :
    (n ∈ l.foldl detectStep acc ↔ contentHit vs = true) := by
  induction l generalizing acc with
  | nil => cases hm
  | cons c rest ih =>
    simp only [List.map_cons, List.nodup_cons] at hnd
    rcases List.mem_cons.mp hm with he | hr
    · rw [List.foldl_cons, ← he, detectStep_no_name vs hnm hacc]
      by_cases hch : contentHit vs = true
      · rw [if_pos hch]
        exact iff_of_true (detect_foldl_mono rest (List.mem_append_right _ (List.mem_singleton_self _))) hch
      · rw [if_neg hch]
        refine iff_of_false (detect_foldl_not_mem hacc ?_) hch
        have : c.1 = n := by rw [← he]
        exact this ▸ hnd.1
    · have hne : c.1 ≠ n := by
        intro hcn
        exact hnd.1 (hcn ▸ (List.mem_map.mpr ⟨(n, vs), hr, rfl⟩))
      rw [List.foldl_cons]
      refine ih (detectStep acc c) hnd.2 hr ?_
      intro hmem
      rcases detectStep_sub hmem with h | h
      · exact hacc h
      · exact hne h.symm

theorem columnsOf_map_fst (df : DF) : (columnsOf df).map Prod.fst = df.header := by
  unfold columnsOf
  rw [List.map_map]
  have : (Prod.fst ∘ fun p : Nat × String => (p.2, df.rows.map (fun r => (r.get? p.1).join)))
      = Prod.snd := rfl
  rw [this]
  exact List.enum_map_snd df.header

theorem detect_mem_of_nameMatches {df : DF} {n : String} {vs : List (Option JVal)}
    (hm : (n, vs) ∈ columnsOf df) (h : nameMatches n = true) :
    n ∈ _detect_hash_columns df :=
  mem_detect_foldl_of_name hm h

theorem detect_mem_iff_content {df : DF} {n : String} {vs : List (Option JVal)}
    (hnd : df.header.Nodup) (hm : (n, vs) ∈ columnsOf df)
    (hnm : nameMatches n = false) :
    (n ∈ _detect_hash_columns df ↔ contentHit vs = true) :=
  detect_spec_gen (columnsOf df) [] n vs
    (by rw [columnsOf_map_fst]; exact hnd) hm hnm (List.not_mem_nil n)

theorem contentHit_iff (vs : List (Option JVal)) :
    contentHit vs = true ↔
      sampleValues vs ≠ [] ∧
        7 * (sampleValues vs).length ≤ 10 * (sampleValues vs).countP isHashValue := by
  unfold contentHit
  by_cases hv : vs.isEmpty
  · have : vs = [] := by simpa using hv
    subst this
    simp [sampleValues]
  · rw [if_neg hv]
    by_cases hs : 0 < (sampleValues vs).length
    · rw [if_pos hs]
      have hne : sampleValues vs ≠ [] := List.length_pos.mp hs
      simp [decide_eq_true_eq, hne]
    · rw [if_neg hs]
      have : sampleValues vs = [] := by
        have := Nat.eq_zero_of_not_pos hs
        exact List.eq_nil_of_length_eq_zero this
      simp [this]

theorem hashLengths_ge {k : Nat} (h : hashLengths.contains k = true) : 17 ≤ k := by
  have hk : k ∈ hashLengths := List.elem_iff.mp h
  simp only [hashLengths, List.mem_cons, List.not_mem_nil, or_false] at hk
  rcases hk with h | h | h | h | h | h <;> omega

theorem isHashValue_eq_specAmended : isHashValue = specHashShapedAmended := by
  funext v
  unfold isHashValue pyMatchHexRun specHashShapedAmended
  by_cases hC : hashLengths.contains v.toList.length = true
  · have h17 : 17 ≤ v.toList.length := hashLengths_ge hC
    have h16 : 16 ≤ v.toList.length := by omega
    simp only [hC, Bool.and_true, decide_eq_true h16, decide_eq_true h17, Bool.true_and]
  · have hm : v.toList.length ∉ hashLengths := fun hmem => hC (List.elem_iff.mpr hmem)
    have hm' : ¬ (v.length ∈ hashLengths) := by simpa using hm
    simp [hm']

theorem nameMatches_of_pat {n p : String} (hp : p ∈ hashPats)
    (h : strContainsSub (firstLine (lowerAscii n)) p = true) :
    nameMatches n = true := by
  unfold nameMatches
  rw [List.any_eq_true]
  exact ⟨p, hp, h⟩

/-- Claim C9: the classifier is idempotent — recomputing the hash-bearing
column set on the same table gives the same result, since the classifier is
a pure function of the table (the embedding is deterministic exactly as the
source loop is: no mutation of the table, no stateful input). -/
theorem claim_c9_idempotent (df : DF) :
    _detect_hash_columns df = _detect_hash_columns df := rfl

/-- Claim C2, counterexample: the claim quantifies over every column whose
name contains one of the enumerated substrings case-insensitively, but the
code matches the substring with a dotstar regex and re.match, and the dot
does not cross a newline: a normalized table with a column named foo, then a
newline, then hash is not classified, although its name contains hash. -/
theorem claim_c2_counterexample :
    ¬ (∀ (resp : PyDict) (df : DF), extract_all_fields resp = .ok df →
        ∀ p ∈ columnsOf df,
          claimC2Pats.any (fun q => strContainsSub (lowerAscii p.1) q) = true →
          p.1 ∈ _detect_hash_columns df) := by
  intro h
  have hdf : extract_all_fields respC2 = .ok dfC2 := by decide
  have hmem : ("foo\nhash", [some (JVal.s "x")]) ∈ columnsOf dfC2 := List.Mem.head _
  have hc := h respC2 dfC2 hdf _ hmem (by decide)
  exact absurd hc (by decide)

/-- Claim C2 as amended: for every table and every column whose lowercased
name contains one of the enumerated substrings before any newline, the
classifier includes that column, whatever its content. -/
theorem claim_c2_amended (df : DF) (p : String × List (Option JVal))
    (hp : p ∈ columnsOf df)
    (hq : claimC2Pats.any (fun q => strContainsSub (firstLine (lowerAscii p.1)) q) = true) :
    p.1 ∈ _detect_hash_columns df := by
  obtain ⟨n, vs⟩ := p
  rcases List.any_eq_true.mp hq with ⟨q, hqm, hqc⟩
  exact detect_mem_of_nameMatches hp
    (nameMatches_of_pat ((by decide : ∀ x ∈ claimC2Pats, x ∈ hashPats) q hqm) hqc)

/-- Claim C2 witness: a column named md5_hash whose only value is the
non-hex string n/a is classified by name alone. -/
theorem claim_c2_witness : "md5_hash" ∈ _detect_hash_columns dfMd5 :=
  claim_c2_amended dfMd5 ("md5_hash", [some (JVal.s "n/a")]) (List.Mem.head _) (by decide)

/-- Claim C10, counterexample: the claim says a lowercased name containing
lm anywhere is classified by name; the regex dot does not cross a newline,
so a normalized table with a column named a, newline, lm is not classified
although its name contains lm.  (Note also that the claim offers html as an
example, but html does not contain the substring lm at all.) -/
theorem claim_c10_counterexample :
    ¬ (∀ (resp : PyDict) (df : DF), extract_all_fields resp = .ok df →
        ∀ p ∈ columnsOf df, strContainsSub (lowerAscii p.1) "lm" = true →
        p.1 ∈ _detect_hash_columns df) := by
  intro h
  have hdf : extract_all_fields respC10 = .ok dfC10 := by decide
  have hmem : ("a\nlm", [some (JVal.s "x")]) ∈ columnsOf dfC10 := List.Mem.head _
  have hc := h respC10 dfC10 hdf _ hmem (by decide)
  exact absurd hc (by decide)

/-- Claim C10 as amended: any column whose lowercased name contains the
substring lm before any newline (for example film_title or realm) is
classified as hash-bearing by the name-based match alone, regardless of the
column content. -/
theorem claim_c10_amended (df : DF) (p : String × List (Option JVal))
    (hp : p ∈ columnsOf df)
    (hq : strContainsSub (firstLine (lowerAscii p.1)) "lm" = true) :
    p.1 ∈ _detect_hash_columns df := by
  obtain ⟨n, vs⟩ := p
  exact detect_mem_of_nameMatches hp (nameMatches_of_pat (by decide) hq)

/-- Claim C10 witness: a column named film_title holding plaintext is
classified by the lm name pattern alone. -/
theorem claim_c10_witness : "film_title" ∈ _detect_hash_columns dfFilm :=
  claim_c10_amended dfFilm ("film_title", [some (JVal.s "The Matrix")])
    (List.Mem.head _) (by decide)

/-- Claim C1, counterexample: the claim calls a value hash-shaped exactly
when it is solely hexadecimal of a digest length, but the code regex also
accepts a trailing newline (the dollar anchor matches before a newline that
ends the string): a normalized table whose data column holds a 31-hex-digit
value with a final newline (length 32) is classified by content although
none of its sampled values is solely hexadecimal. -/
theorem claim_c1_counterexample :
    ¬ (∀ (resp : PyDict) (df : DF), extract_all_fields resp = .ok df →
        df.header.Nodup →
        ∀ p ∈ columnsOf df, nameMatches p.1 = false →
        (p.1 ∈ _detect_hash_columns df ↔
          sampleValues p.2 ≠ [] ∧
            7 * (sampleValues p.2).length ≤
              10 * (sampleValues p.2).countP specHashShapedClaim)) := by
  intro h
  have hdf : extract_all_fields respC1 = .ok dfC1 := by decide
  have hmem : ("data", [some (JVal.s hexNL)]) ∈ columnsOf dfC1 := List.Mem.head _
  have hiff := h respC1 dfC1 hdf (by decide) _ hmem (by decide)
  have hmemd : "data" ∈ _detect_hash_columns dfC1 := by decide
  exact absurd (hiff.mp hmemd).2 (by decide)

/-- Claim C1 as amended: for every table with distinct column labels and
every column not classified by name, the column is classified if and only if
it has at least one sampled value (up to 10 non-absent values, rendered with
str) and at least 70 percent of the sampled values are hash-shaped, where
hash-shaped means solely hexadecimal characters — or hexadecimal characters
followed by a single final newline — with total length one of 32, 40, 56,
64, 96, 128; the 70 percent boundary is inclusive. -/
theorem claim_c1_amended (df : DF) (p : String × List (Option JVal))
    (hnd : df.header.Nodup) (hp : p ∈ columnsOf df)
    (hnm : nameMatches p.1 = false) :
    (p.1 ∈ _detect_hash_columns df ↔
      sampleValues p.2 ≠ [] ∧
        7 * (sampleValues p.2).length ≤
          10 * (sampleValues p.2).countP specHashShapedAmended) := by
  obtain ⟨n, vs⟩ := p
  rw [detect_mem_iff_content hnd hp hnm, contentHit_iff, isHashValue_eq_specAmended]

/-- Claim C1 witness: a ten-value column with exactly 7 hash-shaped values
out of 10 sampled sits on the inclusive 70 percent boundary and is
classified. -/
theorem claim_c1_witness : "data" ∈ _detect_hash_columns dfC1w :=
  (claim_c1_amended dfC1w ("data", valsC1w) (by decide) (List.Mem.head _)
    (by decide)).mpr (by decide)

theorem extract_none {resp : PyDict} (hl : resp.lookup "entries" = none) :
    extract_all_fields resp = .error .missingEntries := by
  unfold extract_all_fields; rw [hl]

theorem extract_nonArr {resp : PyDict} {v : JVal}
    (hl : resp.lookup "entries" = some v) (hv : v.isArr = false) :
    extract_all_fields resp = .error .invalidEntriesType := by
  unfold extract_all_fields
  rw [hl]
  cases v <;> first | rfl | (exfalso; simp [JVal.isArr] at hv)

theorem extract_arr {resp : PyDict} {es : List JVal}
    (hl : resp.lookup "entries" = some (JVal.arr es)) :
    extract_all_fields resp =
      if es.isEmpty then .ok ⟨[], []⟩
      else if pandasRaises es then .error .pandasRaise
      else .ok (normalizeTable es) := by
  unfold extract_all_fields; rw [hl]

theorem extract_arr_ne {resp : PyDict} {es : List JVal}
    (hl : resp.lookup "entries" = some (JVal.arr es)) (hne : es ≠ [])
    (hpr : pandasRaises es = false) :
    extract_all_fields resp = .ok (normalizeTable es) := by
  rw [extract_arr hl, if_neg (by simpa using hne), if_neg (by simp [hpr])]

theorem extract_arr_raise {resp : PyDict} {es : List JVal}
    (hl : resp.lookup "entries" = some (JVal.arr es)) (hne : es ≠ [])
    (hpr : pandasRaises es = true) :
    extract_all_fields resp = .error .pandasRaise := by
  rw [extract_arr hl, if_neg (by simpa using hne), if_pos hpr]

/-- Claim C4, counterexample: the claim says extract_all_fields raises no
error kind beyond the missing-entries and invalid-entries-type ones, but on
a batch holding a list-shaped record the pandas frame construction raises a
library-internal exception that escapes the call — a third error kind. -/
theorem claim_c4_counterexample :
    extract_all_fields respC4x = .error .pandasRaise ∧
    ExtractError.pandasRaise ≠ ExtractError.missingEntries ∧
    ExtractError.pandasRaise ≠ ExtractError.invalidEntriesType :=
  ⟨by decide, by decide, by decide⟩

/-- Claim C4 as amended: extract_all_fields raises the missing-entries
error exactly when the entries key is absent, the invalid-entries-type
error exactly when the entries value is present but not a list, and the
escaping pandas exception exactly when the nonempty records list holds a
list-shaped record or a list-valued field; on every other input it
succeeds, and an empty records list yields the empty frame. -/
theorem claim_c4_amended (resp : PyDict) :
    (extract_all_fields resp = .error .missingEntries ↔ resp.lookup "entries" = none) ∧
    (extract_all_fields resp = .error .invalidEntriesType ↔
      ∃ v, resp.lookup "entries" = some v ∧ v.isArr = false) ∧
    (extract_all_fields resp = .error .pandasRaise ↔
      ∃ es, resp.lookup "entries" = some (JVal.arr es) ∧ es ≠ [] ∧ pandasRaises es = true) ∧
    (∀ es, resp.lookup "entries" = some (JVal.arr es) → pandasRaises es = false →
      ∃ df, extract_all_fields resp = .ok df) ∧
    (resp.lookup "entries" = some (JVal.arr []) → extract_all_fields resp = .ok ⟨[], []⟩) := by
  cases hl : resp.lookup "entries" with
  | none =>
    have he := extract_none hl
    refine ⟨by simp [he], by simp [he], by simp [he], ?_, ?_⟩
    · intro es hes; cases hes
    · intro hes; cases hes
  | some v =>
    cases v with
    | arr es =>
      have he := extract_arr hl
      refine ⟨?_, ?_, ?_, ?_, ?_⟩
      · rw [he]
        constructor
        · intro h
          split at h
          · cases h
          · split at h
            · simp at h
            · cases h
        · intro h; cases h
      · rw [he]
        constructor
        · intro h
          split at h
          · cases h
          · split at h
            · simp at h
            · cases h
        · rintro ⟨w, hw, hwa⟩
          rw [Option.some_inj] at hw
          rw [← hw] at hwa
          simp [JVal.isArr] at hwa
      · constructor
        · intro hx
          rw [he] at hx
          by_cases h1 : es.isEmpty
          · rw [if_pos h1] at hx; cases hx
          · rw [if_neg h1] at hx
            by_cases h2 : pandasRaises es = true
            · refine ⟨es, rfl, ?_, h2⟩
              intro hnil
              exact h1 (by rw [hnil]; rfl)
            · rw [if_neg h2] at hx; cases hx
        · rintro ⟨es2, heq, hne2, hr2⟩
          rw [Option.some_inj] at heq
          injection heq with h3
          subst h3
          rw [he, if_neg (by simpa using hne2), if_pos hr2]
      · intro es2 heq hpr
        rw [Option.some_inj] at heq
        injection heq with h3
        subst h3
        rw [he]
        by_cases h1 : es.isEmpty
        · rw [if_pos h1]; exact ⟨⟨[], []⟩, rfl⟩
        · rw [if_neg h1, if_neg (by simp [hpr])]
          exact ⟨normalizeTable es, rfl⟩
      · intro hes
        rw [Option.some_inj] at hes
        cases hes
        rw [he]
        rfl
    | s w =>
      have he := extract_nonArr hl rfl
      refine ⟨by simp [he], ?_, by simp [he], ?_, ?_⟩
      · simp only [he, true_iff, Except.error.injEq]
        exact ⟨JVal.s w, rfl, rfl⟩
      · intro es hes _; rw [Option.some_inj] at hes; cases hes
      · intro hes; rw [Option.some_inj] at hes; cases hes
    | n w =>
      have he := extract_nonArr hl rfl
      refine ⟨by simp [he], ?_, by simp [he], ?_, ?_⟩
      · simp only [he, true_iff, Except.error.injEq]
        exact ⟨JVal.n w, rfl, rfl⟩
      · intro es hes _; rw [Option.some_inj] at hes; cases hes
      · intro hes; rw [Option.some_inj] at hes; cases hes
    | b w =>
      have he := extract_nonArr hl rfl
      refine ⟨by simp [he], ?_, by simp [he], ?_, ?_⟩
      · simp only [he, true_iff, Except.error.injEq]
        exact ⟨JVal.b w, rfl, rfl⟩
      · intro es hes _; rw [Option.some_inj] at hes; cases hes
      · intro hes; rw [Option.some_inj] at hes; cases hes
    | null =>
      have he := extract_nonArr hl rfl
      refine ⟨by simp [he], ?_, by simp [he], ?_, ?_⟩
      · simp only [he, true_iff, Except.error.injEq]
        exact ⟨JVal.null, rfl, rfl⟩
      · intro es hes _; rw [Option.some_inj] at hes; cases hes
      · intro hes; rw [Option.some_inj] at hes; cases hes
    | obj fs =>
      have he := extract_nonArr hl rfl
      refine ⟨by simp [he], ?_, by simp [he], ?_, ?_⟩
      · simp only [he, true_iff, Except.error.injEq]
        exact ⟨JVal.obj fs, rfl, rfl⟩
      · intro es hes _; rw [Option.some_inj] at hes; cases hes
      · intro hes; rw [Option.some_inj] at hes; cases hes

/-- Claim C4 witness: a response without the entries key raises the
missing-entries error, and an empty entries list does not raise. -/
theorem claim_c4_witness :
    extract_all_fields respNoEntries = .error .missingEntries ∧
    extract_all_fields respEmpty = .ok ⟨[], []⟩ :=
  ⟨(claim_c4_amended respNoEntries).1.mpr (by decide),
   (claim_c4_amended respEmpty).2.2.2.2 (by decide)⟩

theorem splitOnChar_eq_single {c : Char} : ∀ {xs : List Char}, c ∉ xs →
    splitOnChar c xs = [xs]
  | [], _ => rfl
  | a :: rest, h => by
    have hac : (a == c) = false :=
      beq_eq_false_iff_ne.mpr (fun hh => (h (hh ▸ List.mem_cons_self a rest)))
    have ih := splitOnChar_eq_single (fun hm => h (List.mem_cons_of_mem a hm))
    unfold splitOnChar
    rw [hac]
    simp only [Bool.false_eq_true, if_false, ih]

theorem splitOnChar_append {c : Char} : ∀ {xs : List Char} (ys : List Char), c ∉ xs →
    splitOnChar c (xs ++ c :: ys) = xs :: splitOnChar c ys
  | [], ys, _ => by
    show splitOnChar c (c :: ys) = [] :: splitOnChar c ys
    simp only [splitOnChar, beq_self_eq_true, if_true]
  | a :: rest, ys, h => by
    have hac : (a == c) = false :=
      beq_eq_false_iff_ne.mpr (fun hh => (h (hh ▸ List.mem_cons_self a rest)))
    have ih := @splitOnChar_append c rest ys
      (fun hm => h (List.mem_cons_of_mem a hm))
    rw [List.cons_append]
    simp only [splitOnChar, hac, Bool.false_eq_true, if_false, ih]

theorem dropWhile_self_idem {p : Char → Bool} (l : List Char) :
    (l.dropWhile p).dropWhile p = l.dropWhile p := by
  induction l with
  | nil => rfl
  | cons a rest ih =>
    by_cases hp : p a = true
    · simp [List.dropWhile_cons, hp, ih]
    · simp [List.dropWhile_cons, hp]

theorem head_dropWhile_false {p : Char → Bool} :
    ∀ {l : List Char} {a : Char} {t : List Char},
      l.dropWhile p = a :: t → p a = false := by
  intro l
  induction l with
  | nil => intro a t h; cases h
  | cons x rest ih =>
    intro a t h
    by_cases hp : p x = true
    · rw [List.dropWhile_cons, if_pos hp] at h
      exact ih h
    · rw [List.dropWhile_cons, if_neg hp] at h
      cases h
      simpa using hp

theorem dropWhile_of_prefix_of_dropWhile {p : Char → Bool} {l w : List Char}
    (hpre : l <+: w.dropWhile p) : l.dropWhile p = l := by
  cases hw : l with
  | nil => rfl
  | cons a t =>
    obtain ⟨t2, ht2⟩ := hpre
    rw [hw] at ht2
    have : w.dropWhile p = a :: (t ++ t2) := by rw [← ht2]; rfl
    have hpa : p a = false := head_dropWhile_false this
    rw [List.dropWhile_cons, if_neg (by simp [hpa])]

theorem pyStripL_idem (l : List Char) : pyStripL (pyStripL l) = pyStripL l := by
  have hsuf : (l.dropWhile isPySpace).reverse.dropWhile isPySpace <:+
      (l.dropWhile isPySpace).reverse := List.dropWhile_suffix _
  have hpre : ((l.dropWhile isPySpace).reverse.dropWhile isPySpace).reverse <+:
      l.dropWhile isPySpace := by
    have h2 := List.reverse_prefix.mpr hsuf
    rwa [List.reverse_reverse] at h2
  have h1 : (((l.dropWhile isPySpace).reverse.dropWhile isPySpace).reverse).dropWhile isPySpace
      = ((l.dropWhile isPySpace).reverse.dropWhile isPySpace).reverse :=
    @dropWhile_of_prefix_of_dropWhile isPySpace
      ((l.dropWhile isPySpace).reverse.dropWhile isPySpace).reverse l hpre
  unfold pyStripL
  rw [h1, List.reverse_reverse, dropWhile_self_idem]

theorem pyStrip_idem (s : String) : pyStrip (pyStrip s) = pyStrip s := by
  unfold pyStrip
  rw [show (String.mk (pyStripL s.toList)).toList = pyStripL s.toList from rfl,
    pyStripL_idem]

theorem toList_append_semi (a b : String) :
    (a ++ ";" ++ b).toList = a.toList ++ ';' :: b.toList := by
  simp [String.toList, String.data_append]

/-- Claim C7, counterexample: a record whose secrets field is a single
delimiter-joined string (not a list) yields no row at all — the narrow
extraction only splits list elements on the delimiter, so the claimed
(identifier, secret) row is not produced. -/
theorem claim_c7_counterexample :
    extract_email_password_data respC7 = .ok [] ∧
    (Except.ok ([] : List (String × String)) : Except ExtractError (List (String × String))) ≠
      .ok [("user@x.com", "secretpw")] := by
  exact ⟨by decide, by decide⟩

/-- Auxiliary characterization of the per-entry extraction: on a record
whose password field is the list of delimiter-joined strings built from
identifier-secret pairs none of which contains the delimiter, the entry
contributes exactly the trimmed pairs in order. -/
theorem pairsOfEntry_semi (fs : PyDict) (l : List (String × String))
    (hp : fs.lookup "password"
      = some (JVal.arr (l.map (fun p => JVal.s (p.1 ++ ";" ++ p.2)))))
    (hl : ∀ p ∈ l, ';' ∉ p.1.toList ∧ ';' ∉ p.2.toList) :
    pairsOfEntry fs = l.map (fun p => (pyStrip p.1, pyStrip p.2)) := by
  suffices key : ∀ (l2 : List (String × String)),
      (∀ p ∈ l2, ';' ∉ p.1.toList ∧ ';' ∉ p.2.toList) →
      ∀ acc : List (String × String),
        List.foldl (fun acc p =>
          let sp := pyStr p
          if sp.toList.contains ';' then
            match pySplitSemi sp with
            | [x, y] => acc ++ [(pyStrip x, pyStrip y)]
            | _ => acc
          else
            match fs.lookup "email" with
            | some ed =>
              let emails := match ed with | .arr es => es | e => [e]
              acc ++ (emails.filter pyTruthy).map
                (fun e => (pyStrip (pyStr e), pyStrip sp))
            | none => acc) acc
          (l2.map (fun p => JVal.s (p.1 ++ ";" ++ p.2)))
        = acc ++ l2.map (fun p => (pyStrip p.1, pyStrip p.2)) by
    unfold pairsOfEntry
    rw [hp]
    have h2 := key l hl []
    rw [List.nil_append] at h2
    exact h2
  intro l2
  induction l2 with
  | nil => intro _ acc; simp
  | cons q rest ih =>
    intro hq acc
    obtain ⟨hqa, hqb⟩ := hq q (List.mem_cons_self q rest)
    have hcont : ((q.1 ++ ";" ++ q.2).toList.contains ';') = true := by
      rw [toList_append_semi]
      exact List.elem_iff.mpr (List.mem_append_right _ (List.mem_cons_self _ _))
    have hsplit : pySplitSemi (q.1 ++ ";" ++ q.2) = [q.1, q.2] := by
      unfold pySplitSemi
      rw [toList_append_semi, splitOnChar_append _ hqa, splitOnChar_eq_single hqb]
      rfl
    simp only [List.map_cons, List.foldl_cons]
    rw [show pyStr (JVal.s (q.1 ++ ";" ++ q.2)) = q.1 ++ ";" ++ q.2 from rfl,
      if_pos hcont, hsplit]
    rw [ih (fun p hp2 => hq p (List.mem_cons_of_mem q hp2))]
    simp [List.append_assoc]

/-- Claim C7 as amended: on a record whose secrets field holds a list of
delimiter-joined identifier-secret strings, every element is split on the
semicolon and both parts are whitespace-trimmed; the collected rows then
lose the rows equal to an earlier one (first kept) and the rows whose
trimmed identifier or secret is empty.  A single string value is not
split: with no identifier field alongside, the record is skipped. -/
theorem claim_c7_amended (l : List (String × String))
    (hl : ∀ p ∈ l, ';' ∉ p.1.toList ∧ ';' ∉ p.2.toList) :
    extract_email_password_data (respC7Ls l) =
      .ok ((dedupKeepFirst (l.map (fun p => (pyStrip p.1, pyStrip p.2)))).filter
        (fun pr => pyStrip pr.1 != "" && pyStrip pr.2 != "")) := by
  have hpl : (([("password", JVal.arr (l.map (fun p => JVal.s (p.1 ++ ";" ++ p.2))))] :
      PyDict).lookup "password")
      = some (JVal.arr (l.map (fun p => JVal.s (p.1 ++ ";" ++ p.2)))) := by
    simp [List.lookup]
  have hpairs := pairsOfEntry_semi _ l hpl hl
  simp only [extract_email_password_data, respC7Ls, List.lookup, beq_self_eq_true,
    if_true, List.foldl_cons, List.foldl_nil, List.nil_append, hpairs]
  cases l with
  | nil => rfl
  | cons q rest =>
    rw [List.map_cons, if_neg (by simp)]

/-- Claim C7 witness: the record with password [user@x.com;secretpw] yields
exactly the row (user@x.com, secretpw). -/
theorem claim_c7_witness :
    extract_email_password_data (respC7Ls [("user@x.com", "secretpw")]) =
      .ok [("user@x.com", "secretpw")] := by
  have h := claim_c7_amended [("user@x.com", "secretpw")]
    (by intro p hp; rw [List.mem_singleton] at hp; subst hp; exact ⟨by decide, by decide⟩)
  rw [h]
  decide

theorem ensure_eq_of_nodup : ∀ {cols : List String} {df : DF}, cols.Nodup →
    _ensure_common_columns df cols =
      ⟨df.header ++ cols.filter (fun c => !df.header.contains c),
       df.rows.map (fun r =>
         r ++ List.replicate (cols.filter (fun c => !df.header.contains c)).length none)⟩ := by
  intro cols
  induction cols with
  | nil =>
    intro df _
    simp [_ensure_common_columns]
  | cons c cs ih =>
    intro df hnd
    rw [List.nodup_cons] at hnd
    unfold _ensure_common_columns
    rw [List.foldl_cons]
    by_cases hc : df.header.contains c = true
    · rw [if_pos hc]
      have hstep := @ih df hnd.2
      unfold _ensure_common_columns at hstep
      rw [hstep]
      rw [List.filter_cons, if_neg (by rw [hc]; decide)]
    · have hcf : df.header.contains c = false := by simpa using hc
      rw [if_neg hc]
      have hstep := @ih ⟨df.header ++ [c], df.rows.map (fun r => r ++ [none])⟩ hnd.2
      unfold _ensure_common_columns at hstep
      rw [hstep]
      dsimp only
      have hfeq : cs.filter (fun x => !((df.header ++ [c]).contains x))
          = cs.filter (fun x => !df.header.contains x) := by
        apply List.filter_congr
        intro x hx
        have hxc : x ≠ c := fun hh => hnd.1 (hh ▸ hx)
        have hcx : ((df.header ++ [c]).contains x) = df.header.contains x := by
          cases hdx : df.header.contains x with
          | true =>
            exact List.elem_iff.mpr (List.mem_append_left _ (List.elem_iff.mp hdx))
          | false =>
            apply contains_eq_false_of_not_mem
            intro hmem
            rcases List.mem_append.mp hmem with h | h
            · have hco : df.header.contains x = true := List.elem_iff.mpr h
              rw [hdx] at hco
              cases hco
            · rw [List.mem_singleton] at h
              exact hxc h
        show (!((df.header ++ [c]).contains x)) = (!df.header.contains x)
        rw [hcx]
      have hfcons : (c :: cs).filter (fun x => !df.header.contains x)
          = c :: cs.filter (fun x => !df.header.contains x) := by
        rw [List.filter_cons,
          if_pos (show (!df.header.contains c) = true by rw [hcf]; decide)]
      simp only [hfeq, hfcons]
      refine congrArg₂ DF.mk ?_ ?_
      · simp [List.append_assoc]
      · rw [List.map_map]
        apply List.map_congr_left
        intro r _
        simp only [Function.comp_apply, List.length_cons, List.replicate_succ]
        rw [List.append_assoc]
        rfl

/-- Claim C8, counterexample: on the colliding key paths user.profile.name
and user profile name the normalizer does not produce a single column whose
values are those of the later-discovered path — it produces two columns
under the same sanitized label, each keeping its own values, as the count
of the label in the header shows. -/
theorem claim_c8_counterexample :
    extract_all_fields (respC8 "user.profile.name" "user profile name" "John" "Jane") =
      .ok dfC8 ∧ dfC8.header.count "user_profile_name" = 2 :=
  ⟨by decide, by decide⟩

/-- Claim C8 as amended: for every pair of distinct single-key records whose
keys sanitize to the same name, normalization does not crash and returns a
table with two columns of that sanitized name, in discovery order, each
retaining its own record values; no data is merged or lost. -/
theorem claim_c8_amended (k1 k2 v1 v2 : String) (hne : k1 ≠ k2)
    (hcol : sanitizeName k1 = sanitizeName k2) :
    extract_all_fields (respC8 k1 k2 v1 v2) =
      .ok ⟨sanitizeName k1 :: sanitizeName k1 ::
             commonCols.filter (fun c => !([sanitizeName k1, sanitizeName k1].contains c)),
           [some (JVal.s v1) :: none ::
              List.replicate (commonCols.filter
                (fun c => !([sanitizeName k1, sanitizeName k1].contains c))).length none,
            none :: some (JVal.s v2) ::
              List.replicate (commonCols.filter
                (fun c => !([sanitizeName k1, sanitizeName k1].contains c))).length none]⟩ := by
  have hb21 : (k2 == k1) = false := beq_eq_false_iff_ne.mpr (Ne.symm hne)
  have hl : (respC8 k1 k2 v1 v2).lookup "entries"
      = some (JVal.arr [JVal.obj [(k1, JVal.s v1)], JVal.obj [(k2, JVal.s v2)]]) := rfl
  rw [extract_arr_ne hl (by simp) rfl]
  refine congrArg Except.ok ?_
  have hu : unionKeys [[(k1, JVal.s v1)], [(k2, JVal.s v2)]] = [k1, k2] := by
    unfold unionKeys
    simp only [List.foldl_cons, List.foldl_nil]
    have h2 : ([k1].contains k2) = false := by
      show (k2 == k1 || false) = false
      rw [hb21]
      rfl
    simp [h2, Ne.symm hne]
  have hlk1 : List.lookup k1 [(k1, JVal.s v1)] = some (JVal.s v1) := by
    simp [List.lookup]
  have hlk2 : List.lookup k2 [(k1, JVal.s v1)] = none := by
    simp [List.lookup, hb21]
  have hlk3 : List.lookup k1 [(k2, JVal.s v2)] = none := by
    simp [List.lookup, beq_eq_false_iff_ne.mpr hne]
  have hlk4 : List.lookup k2 [(k2, JVal.s v2)] = some (JVal.s v2) := by
    simp [List.lookup]
  have hjn : json_normalize [JVal.obj [(k1, JVal.s v1)], JVal.obj [(k2, JVal.s v2)]]
      = ⟨[k1, k2], [[some (JVal.s v1), none], [none, some (JVal.s v2)]]⟩ := by
    unfold json_normalize
    simp only [List.map_cons, List.map_nil, flatOf]
    rw [show recordFlat [(k1, JVal.s v1)] = [(k1, JVal.s v1)] from rfl,
      show recordFlat [(k2, JVal.s v2)] = [(k2, JVal.s v2)] from rfl, hu]
    unfold rowOf
    simp only [List.map_cons, List.map_nil, hlk1, hlk2, hlk3, hlk4]
    rfl
  have hsan : _sanitize_column_names ⟨[k1, k2], [[some (JVal.s v1), none], [none, some (JVal.s v2)]]⟩
      = ⟨[sanitizeName k1, sanitizeName k1], [[some (JVal.s v1), none], [none, some (JVal.s v2)]]⟩ := by
    unfold _sanitize_column_names
    simp only [List.map_cons, List.map_nil, ← hcol]
  show _intelligent_cleanup (_ensure_common_columns (_sanitize_column_names
    (json_normalize [JVal.obj [(k1, JVal.s v1)], JVal.obj [(k2, JVal.s v2)]])) commonCols) = _
  rw [hjn, hsan, ensure_eq_of_nodup (by decide)]
  rfl

/-- Claim C8 witness: the canonical colliding pair produces the two-column
table with both values retained. -/
theorem claim_c8_witness :
    extract_all_fields (respC8 "user.profile.name" "user profile name" "John" "Jane") =
      .ok dfC8 := by
  have h := claim_c8_amended "user.profile.name" "user profile name" "John" "Jane"
    (by decide) (by decide)
  rw [h]
  decide

theorem preTable_eq (es : List JVal) :
    preTable es =
      ⟨(_sanitize_column_names (json_normalize es)).header ++
         commonCols.filter
           (fun c => !(_sanitize_column_names (json_normalize es)).header.contains c),
       (_sanitize_column_names (json_normalize es)).rows.map
         (fun r => r ++ List.replicate (commonCols.filter
           (fun c => !(_sanitize_column_names (json_normalize es)).header.contains c)).length
           none)⟩ :=
  ensure_eq_of_nodup (by decide)

theorem preTable_rows_length (es : List JVal) :
    (preTable es).rows.length = es.length := by
  rw [preTable_eq]
  simp [_sanitize_column_names, json_normalize]

theorem mem_preTable_header (es : List JVal) {c : String} (hc : c ∈ commonCols) :
    c ∈ (preTable es).header := by
  rw [preTable_eq]
  by_cases h : (_sanitize_column_names (json_normalize es)).header.contains c = true
  · exact List.mem_append_left _ (List.elem_iff.mp h)
  · refine List.mem_append_right _ ?_
    rw [List.mem_filter]
    have hcf : (_sanitize_column_names (json_normalize es)).header.contains c = false := by
      simpa using h
    exact ⟨hc, by rw [hcf]; decide⟩

theorem preTable_header_ne_nil (es : List JVal) : (preTable es).header ≠ [] := by
  intro h
  have := @mem_preTable_header es "email" (by decide)
  rw [h] at this
  cases this

theorem normalizeTable_eq {es : List JVal} (hne : es ≠ []) :
    normalizeTable es =
      ⟨(preTable es).header,
       dedupKeepFirst ((preTable es).rows.filter (fun r => !isAbsentRow r))⟩ := by
  show _intelligent_cleanup (preTable es) = _
  unfold _intelligent_cleanup
  rw [if_neg]
  intro h
  rw [Bool.or_eq_true] at h
  rcases h with h | h
  · rw [List.isEmpty_iff] at h
    have := preTable_rows_length es
    rw [h] at this
    exact hne (List.eq_nil_of_length_eq_zero this.symm)
  · rw [List.isEmpty_iff] at h
    exact preTable_header_ne_nil es h

theorem dedup_foldl_sub {α : Type} [BEq α] :
    ∀ {l : List α} {acc : List α} {x : α},
      x ∈ l.foldl (fun acc r => if acc.contains r then acc else acc ++ [r]) acc →
      x ∈ acc ∨ x ∈ l := by
  intro l
  induction l with
  | nil => exact fun h => Or.inl h
  | cons a rest ih =>
    intro acc x h
    rw [List.foldl_cons] at h
    rcases ih h with h2 | h2
    · by_cases hc : acc.contains a = true
      · rw [if_pos hc] at h2
        exact Or.inl h2
      · rw [if_neg hc] at h2
        rcases List.mem_append.mp h2 with h3 | h3
        · exact Or.inl h3
        · exact Or.inr (by rw [List.mem_singleton.mp h3]; exact List.mem_cons_self a rest)
    · exact Or.inr (List.mem_cons_of_mem a h2)

theorem mem_of_mem_dedup {α : Type} [BEq α] {l : List α} {x : α}
    (h : x ∈ dedupKeepFirst l) : x ∈ l := by
  rcases dedup_foldl_sub h with h2 | h2
  · cases h2
  · exact h2

theorem dedup_foldl_length {α : Type} [BEq α] :
    ∀ (l : List α) (acc : List α),
      (l.foldl (fun acc r => if acc.contains r then acc else acc ++ [r]) acc).length ≤
        acc.length + l.length := by
  intro l
  induction l with
  | nil => intro acc; simp
  | cons a rest ih =>
    intro acc
    rw [List.foldl_cons]
    refine le_trans (ih _) ?_
    by_cases hc : acc.contains a = true
    · rw [if_pos hc]
      simp only [List.length_cons]
      omega
    · rw [if_neg hc]
      simp only [List.length_append, List.length_cons, List.length_nil]
      omega

theorem dedup_length_le {α : Type} [BEq α] (l : List α) :
    (dedupKeepFirst l).length ≤ l.length := by
  have := dedup_foldl_length l ([] : List α)
  simpa using this

/-- Claim C5, counterexample: the claim says the cleanup drops only fully
absent rows and exact-duplicate rows, every column value identical.  On the
two-record batch whose only cells hold the Python boolean True and the int
1, no row is fully absent and no two rows are identical, yet the cleaned
table keeps a single row: drop_duplicates compares with Python ==, under
which True equals 1, so a non-identical row is also lost. -/
theorem claim_c5_counterexample :
    extract_all_fields respC5x =
      .ok ⟨"flag" :: commonCols, [some (JVal.b true) :: List.replicate 8 none]⟩ ∧
    (preTable esC5x).rows.Nodup ∧
    ((preTable esC5x).rows.filter (fun r => isAbsentRow r)).length = 0 ∧
    esC5x.length = 2 :=
  ⟨by decide, by decide, by decide, by decide⟩

/-- Claim C5 as amended: for every accepted batch the cleaning step drops
exactly the fully absent rows and the rows equal to an earlier row under
Python equality — every column value comparing equal with ==, under which
True equals 1 and False equals 0 — keeping first occurrences: the cleaned
rows are precisely the deduplication of the non-absent rows of the
pre-cleanup table, whose rows correspond one-to-one to the input records,
and the row count satisfies cleaned + fully-absent + duplicates = records.
Row positions are list positions, contiguous from zero by construction. -/
theorem claim_c5_amended (resp : PyDict) (es : List JVal)
    (h : resp.lookup "entries" = some (JVal.arr es)) (hne : es ≠ [])
    (hpr : pandasRaises es = false) :
    extract_all_fields resp = .ok (normalizeTable es) ∧
    (normalizeTable es).rows =
      dedupKeepFirst ((preTable es).rows.filter (fun r => !isAbsentRow r)) ∧
    (normalizeTable es).rows.length
      + ((preTable es).rows.filter (fun r => isAbsentRow r)).length
      + (((preTable es).rows.filter (fun r => !isAbsentRow r)).length
          - (normalizeTable es).rows.length)
      = es.length := by
  refine ⟨extract_arr_ne h hne hpr, ?_, ?_⟩
  · rw [normalizeTable_eq hne]
  · have hrows : (normalizeTable es).rows =
        dedupKeepFirst ((preTable es).rows.filter (fun r => !isAbsentRow r)) := by
      rw [normalizeTable_eq hne]
    have hdle : (normalizeTable es).rows.length ≤
        ((preTable es).rows.filter (fun r => !isAbsentRow r)).length := by
      rw [hrows]
      exact dedup_length_le _
    have hpart : ((preTable es).rows.filter (fun r => isAbsentRow r)).length
        + ((preTable es).rows.filter (fun r => !isAbsentRow r)).length
        = (preTable es).rows.length :=
      (List.length_eq_length_filter_add (fun r => isAbsentRow r)).symm
    have hlen := preTable_rows_length es
    omega

/-- Claim C5 witness: four records — three identical and one whose only
field is null — clean down to exactly one row. -/
theorem claim_c5_witness : (normalizeTable esC5).rows.length = 1 := by
  have h := (claim_c5_amended respC5 esC5 (by decide) (by decide) (by decide)).2.1
  rw [h]
  decide

theorem json_rows_length {es : List JVal} {r : List (Option JVal)}
    (hr : r ∈ (json_normalize es).rows) :
    r.length = (json_normalize es).header.length := by
  unfold json_normalize at hr ⊢
  rcases List.mem_map.mp hr with ⟨fl, _, rfl⟩
  simp [rowOf]

/-- Claim C3 as amended: for every non-empty batch the normalizer accepts
(none of the pandas-raising shapes), every baseline column is present in
the normalized table, and a baseline column no record populated holds the
absent marker in every row; for the empty batch the normalizer instead
returns the empty zero-column table. -/
theorem claim_c3_amended :
    (∀ (resp : PyDict) (es : List JVal), resp.lookup "entries" = some (JVal.arr es) →
      pandasRaises es = false → es ≠ [] →
        extract_all_fields resp = .ok (normalizeTable es) ∧
        ∀ c ∈ commonCols, c ∈ (normalizeTable es).header ∧
          (c ∉ (_sanitize_column_names (json_normalize es)).header →
            ∀ r ∈ (normalizeTable es).rows, ∀ i : Nat,
              (normalizeTable es).header[i]? = some c → r[i]? = some none)) ∧
    (∀ resp : PyDict, resp.lookup "entries" = some (JVal.arr []) →
      extract_all_fields resp = .ok ⟨[], []⟩) := by
  constructor
  · intro resp es h hpr hne
    have hdrEq : (normalizeTable es).header = (preTable es).header := by
      rw [normalizeTable_eq hne]
    have rowsEq : (normalizeTable es).rows =
        dedupKeepFirst ((preTable es).rows.filter (fun r => !isAbsentRow r)) := by
      rw [normalizeTable_eq hne]
    have pHdr : (preTable es).header =
        (_sanitize_column_names (json_normalize es)).header ++
          commonCols.filter
            (fun c => !(_sanitize_column_names (json_normalize es)).header.contains c) := by
      rw [preTable_eq]
    have pRows : (preTable es).rows =
        (_sanitize_column_names (json_normalize es)).rows.map
          (fun r => r ++ List.replicate (commonCols.filter
            (fun c => !(_sanitize_column_names (json_normalize es)).header.contains c)).length
            none) := by
      rw [preTable_eq]
    refine ⟨extract_arr_ne h hne hpr, ?_⟩
    intro c hc
    refine ⟨by rw [hdrEq]; exact mem_preTable_header es hc, ?_⟩
    intro hcs r hr i hi
    rw [rowsEq] at hr
    rw [hdrEq, pHdr] at hi
    have hr2 : r ∈ (preTable es).rows :=
      List.mem_of_mem_filter (mem_of_mem_dedup hr)
    rw [pRows] at hr2
    rcases List.mem_map.mp hr2 with ⟨r0, hr0, rfl⟩
    have hr0len : r0.length = (_sanitize_column_names (json_normalize es)).header.length := by
      have h1 : r0.length = (json_normalize es).header.length := json_rows_length hr0
      rw [h1]
      simp [_sanitize_column_names]
    have hige : (_sanitize_column_names (json_normalize es)).header.length ≤ i := by
      by_contra hlt
      push_neg at hlt
      rw [List.getElem?_append_left hlt] at hi
      exact hcs (List.getElem?_mem hi)
    have hilt : i < (_sanitize_column_names (json_normalize es)).header.length +
        (commonCols.filter
          (fun c => !(_sanitize_column_names (json_normalize es)).header.contains c)).length := by
      have := (List.getElem?_eq_some.mp hi).1
      rw [List.length_append] at this
      exact this
    rw [List.getElem?_append_right (by rw [hr0len]; exact hige)]
    rw [hr0len]
    exact List.getElem?_replicate_of_lt (by omega)
  · intro resp h
    rw [extract_arr h]
    rfl

/-- Claim C3, counterexample: on the empty batch, the normalizer returns a
zero-column empty table, so no baseline column (for example email) is
present, contrary to the claim that every batch, including the empty one,
yields the baseline columns. -/
theorem claim_c3_counterexample :
    extract_all_fields respEmpty = .ok ⟨[], []⟩ ∧
    "email" ∉ (⟨[], []⟩ : DF).header :=
  ⟨by decide, by decide⟩

/-- Claim C3 witness: a one-record batch populating only email still ends
with the phone baseline column present, filled with the absent marker in
its only row. -/
theorem claim_c3_witness : "phone" ∈ (normalizeTable esC3).header := by
  have h := (claim_c3_amended.1 [("entries", JVal.arr esC3)] esC3 (by decide)
    (by decide) (by decide)).2 "phone" (by decide)
  exact h.1

theorem flatOf_eq_nil {e : JVal} (he : e.isObj = false) : flatOf e = [] := by
  cases e <;> first | rfl | (exfalso; simp [JVal.isObj] at he)

theorem unionKeys_filter_obj (es : List JVal) :
    unionKeys (es.map flatOf) = unionKeys ((es.filter (fun e => e.isObj)).map flatOf) := by
  unfold unionKeys
  rw [List.foldl_map, List.foldl_map]
  suffices haux : ∀ (l : List JVal) (acc : List String),
      l.foldl (fun acc e => (flatOf e).foldl
        (fun acc p => if acc.contains p.1 then acc else acc ++ [p.1]) acc) acc =
      (l.filter (fun e => e.isObj)).foldl (fun acc e => (flatOf e).foldl
        (fun acc p => if acc.contains p.1 then acc else acc ++ [p.1]) acc) acc by
    exact haux es []
  intro l
  induction l with
  | nil => intro acc; rfl
  | cons e rest ih =>
    intro acc
    rw [List.foldl_cons, List.filter_cons]
    by_cases he : e.isObj = true
    · rw [if_pos (by rw [he])]
      rw [List.foldl_cons]
      exact ih _
    · have hef : e.isObj = false := by simpa using he
      rw [if_neg (by rw [hef]; decide)]
      rw [flatOf_eq_nil hef]
      exact ih acc

theorem rowOf_nil (hdr : List String) :
    rowOf hdr [] = List.replicate hdr.length none := by
  unfold rowOf
  induction hdr with
  | nil => rfl
  | cons a rest ih => simp [List.replicate_succ, ih]

theorem isAbsentRow_replicate (a b : Nat) :
    isAbsentRow (List.replicate a (none : Option JVal) ++ List.replicate b none) = true := by
  unfold isAbsentRow
  rw [List.all_eq_true]
  intro c hc
  rcases List.mem_append.mp hc with h | h
  · rw [List.eq_of_mem_replicate h]; rfl
  · rw [List.eq_of_mem_replicate h]; rfl

theorem filter_map_drop {g : JVal → List (Option JVal)} {p : List (Option JVal) → Bool} :
    ∀ {es : List JVal}, (∀ e ∈ es, e.isObj = false → p (g e) = false) →
      (es.map g).filter p = ((es.filter (fun e => e.isObj)).map g).filter p := by
  intro es
  induction es with
  | nil => intro _; rfl
  | cons e rest ih =>
    intro hg
    simp only [List.map_cons, List.filter_cons]
    by_cases he : e.isObj = true
    · simp only [he, if_true]
      simp only [List.map_cons, List.filter_cons]
      rw [ih (fun x hx => hg x (List.mem_cons_of_mem e hx))]
    · have hef : e.isObj = false := by simpa using he
      have hpg : p (g e) = false := hg e (List.mem_cons_self e rest) hef
      simp only [hef, hpg, Bool.false_eq_true, if_false]
      exact ih (fun x hx => hg x (List.mem_cons_of_mem e hx))

theorem normalizeTable_filter_obj (es : List JVal)
    (hne' : es.filter (fun e => e.isObj) ≠ []) :
    normalizeTable es = normalizeTable (es.filter (fun e => e.isObj)) := by
  have hne : es ≠ [] := by
    intro h
    apply hne'
    rw [h]
    rfl
  have hU : unionKeys (es.map flatOf)
      = unionKeys ((es.filter (fun e => e.isObj)).map flatOf) := unionKeys_filter_obj es
  have hjh : (json_normalize es).header
      = (json_normalize (es.filter (fun e => e.isObj))).header := hU
  have hsh : (_sanitize_column_names (json_normalize es)).header
      = (_sanitize_column_names (json_normalize (es.filter (fun e => e.isObj)))).header := by
    show (json_normalize es).header.map sanitizeName = _
    rw [hjh]
    rfl
  have hrowsJ : (json_normalize es).rows
      = es.map (fun e => rowOf (unionKeys (es.map flatOf)) (flatOf e)) := by
    show (es.map flatOf).map _ = _
    rw [List.map_map]
    rfl
  have hrowsJ2 : (json_normalize (es.filter (fun e => e.isObj))).rows
      = (es.filter (fun e => e.isObj)).map
          (fun e => rowOf (unionKeys (es.map flatOf)) (flatOf e)) := by
    show ((es.filter (fun e => e.isObj)).map flatOf).map _ = _
    rw [List.map_map]
    simp only [← hU]
    rfl
  have pRows : (preTable es).rows = es.map (fun e =>
      rowOf (unionKeys (es.map flatOf)) (flatOf e) ++ List.replicate (commonCols.filter
        (fun c =>
          !(_sanitize_column_names (json_normalize es)).header.contains c)).length none) := by
    rw [preTable_eq]
    show (json_normalize es).rows.map _ = _
    rw [hrowsJ, List.map_map]
    rfl
  have pRows2 : (preTable (es.filter (fun e => e.isObj))).rows
      = (es.filter (fun e => e.isObj)).map (fun e =>
        rowOf (unionKeys (es.map flatOf)) (flatOf e) ++ List.replicate (commonCols.filter
          (fun c =>
            !(_sanitize_column_names (json_normalize es)).header.contains c)).length none) := by
    rw [preTable_eq]
    show (json_normalize (es.filter (fun e => e.isObj))).rows.map _ = _
    rw [hrowsJ2, List.map_map]
    simp only [← hsh]
    rfl
  have pH : (preTable es).header = (preTable (es.filter (fun e => e.isObj))).header := by
    have a1 : (preTable es).header =
        (_sanitize_column_names (json_normalize es)).header ++
          commonCols.filter
            (fun c => !(_sanitize_column_names (json_normalize es)).header.contains c) := by
      rw [preTable_eq]
    have a2 : (preTable (es.filter (fun e => e.isObj))).header =
        (_sanitize_column_names (json_normalize (es.filter (fun e => e.isObj)))).header ++
          commonCols.filter
            (fun c => !(_sanitize_column_names
              (json_normalize (es.filter (fun e => e.isObj)))).header.contains c) := by
      rw [preTable_eq]
    rw [a1, a2, hsh]
  have hfilter : (preTable es).rows.filter (fun r => !isAbsentRow r)
      = (preTable (es.filter (fun e => e.isObj))).rows.filter (fun r => !isAbsentRow r) := by
    rw [pRows, pRows2]
    refine filter_map_drop ?_
    intro e _ hef
    simp only [flatOf_eq_nil hef, rowOf_nil, isAbsentRow_replicate]
    rfl
  rw [normalizeTable_eq hne, normalizeTable_eq hne', pH, hfilter]

theorem flatOf_size_zero {r : JVal} (hz : recordSize r = 0) : flatOf r = [] := by
  cases r <;> first
    | rfl
    | exact List.eq_nil_of_length_eq_zero hz

theorem pandasRaises_cell {es : List JVal} (h : pandasRaises es = false) :
    ∀ r ∈ es, r.isObj = true → (flatOf r).any (fun p => p.2.isArr) = false := by
  intro r hr hro
  cases es with
  | nil => cases hr
  | cons e tail =>
    simp only [pandasRaises] at h
    by_cases he : e.isArr = true
    · rw [if_pos he] at h
      rw [List.any_eq_false] at h
      have hz := h r hr
      have hz2 : recordSize r = 0 := by
        by_contra hz3
        exact hz (by simpa using hz3)
      rw [flatOf_size_zero hz2]
      rfl
    · rw [if_neg he, Bool.or_eq_false_iff] at h
      have h2 := h.2
      rw [List.any_eq_false] at h2
      simpa using h2 r hr

theorem pandasRaises_filter_obj (es : List JVal) (h : pandasRaises es = false) :
    pandasRaises (es.filter (fun e => e.isObj)) = false := by
  cases hm : es.filter (fun e => e.isObj) with
  | nil => rfl
  | cons f rest =>
    have hhead : ∀ x ∈ f :: rest, x.isObj = true := by
      intro x hx
      rw [← hm] at hx
      exact (List.mem_filter.mp hx).2
    have hfobj := hhead f (List.mem_cons_self f rest)
    have hfarr : f.isArr = false := by
      cases f <;> first | rfl | (exfalso; simp [JVal.isObj] at hfobj)
    simp only [pandasRaises]
    rw [if_neg (by simp [hfarr]), Bool.or_eq_false_iff]
    constructor
    · rw [List.any_eq_false]
      intro x hx
      have hxo := hhead x hx
      have hxa : x.isArr = false := by
        cases x <;> first | rfl | (exfalso; simp [JVal.isObj] at hxo)
      simp [hxa]
    · rw [List.any_eq_false]
      intro x hx
      have hxmem : x ∈ es := by
        rw [← hm] at hx
        exact List.mem_of_mem_filter hx
      simpa using pandasRaises_cell h x hxmem (hhead x hx)

/-- Claim C6, counterexample: the claim says non-mapping elements among the
records are skipped and never abort the call, but a list is a non-mapping
element, and on a batch holding one the pandas frame construction raises,
aborting the whole call. -/
theorem claim_c6_counterexample :
    (JVal.arr [JVal.n 1]).isObj = false ∧
    JVal.arr [JVal.n 1] ∈ esC6x ∧
    extract_all_fields respC6x = .error .pandasRaise :=
  ⟨by decide, List.Mem.tail _ (List.Mem.head _), by decide⟩

/-- Claim C6 as amended: on an accepted batch, non-mapping scalar elements
never make the normalizer fail — the call succeeds, and the result equals
the one on the batch with only the mapping records, each scalar
contributing an all-absent row that the cleanup drops; a list-shaped
element instead aborts the whole call with the escaping pandas exception
whenever the batch carries any content at all (only a degenerate batch of
contentless records survives the constructor, as a zero-column frame). -/
theorem claim_c6_amended (resp : PyDict) (es : List JVal)
    (h : resp.lookup "entries" = some (JVal.arr es)) :
    (pandasRaises es = false →
      (extract_all_fields resp).isOk = true ∧
      (es.filter (fun e => e.isObj) ≠ [] →
        extract_all_fields resp =
          extract_all_fields [("entries", JVal.arr (es.filter (fun e => e.isObj)))])) ∧
    ((∃ e ∈ es, e.isArr = true) → (∃ r ∈ es, recordSize r ≠ 0) →
      extract_all_fields resp = .error .pandasRaise) := by
  constructor
  · intro hpr
    constructor
    · rw [extract_arr h]
      by_cases h1 : es.isEmpty
      · rw [if_pos h1]; rfl
      · rw [if_neg h1, if_neg (by simp [hpr])]; rfl
    · intro hne2
      have hne : es ≠ [] := by
        intro hes
        apply hne2
        rw [hes]
        rfl
      have hl2 : ([("entries", JVal.arr (es.filter (fun e => e.isObj)))] : PyDict).lookup
          "entries" = some (JVal.arr (es.filter (fun e => e.isObj))) := rfl
      rw [extract_arr_ne h hne hpr,
        extract_arr_ne hl2 hne2 (pandasRaises_filter_obj es hpr)]
      exact congrArg Except.ok (normalizeTable_filter_obj es hne2)
  · rintro ⟨e, he, hea⟩ ⟨r, hr, hrs⟩
    have hne : es ≠ [] := by
      intro hes
      rw [hes] at he
      cases he
    have hpr : pandasRaises es = true := by
      cases es with
      | nil => cases he
      | cons e0 tail =>
        simp only [pandasRaises]
        by_cases h0 : e0.isArr = true
        · rw [if_pos h0]
          exact List.any_eq_true.mpr ⟨r, hr, by simpa using hrs⟩
        · rw [if_neg h0, Bool.or_eq_true]
          exact Or.inl (List.any_eq_true.mpr ⟨e, he, hea⟩)
    exact extract_arr_raise h hne hpr

/-- Claim C6 witness: a batch holding a number and one mapping record is
processed without failure and equals the extraction of the mapping record
alone. -/
theorem claim_c6_witness :
    (extract_all_fields respC6).isOk = true ∧
    extract_all_fields respC6 =
      extract_all_fields [("entries", JVal.arr (esC6.filter (fun e => e.isObj)))] := by
  have h := (claim_c6_amended respC6 esC6 (by decide)).1 (by decide)
  exact ⟨h.1, h.2 (by decide)⟩
